import Mathlib

set_option maxHeartbeats 1000000
set_option maxRecDepth 100000

/-!
Shallow embedding of `Scripts/update-architecture-diagram.py`.

The script scans a Swift project tree with Python regexes and renders a
PlantUML diagram.  File contents are modelled as `Option String` (`none`
models an unreadable or undecodable file, i.e. the `except` branch around
`open`/`read`).  The regex patterns of the script are implemented below as
executable scanners over `List Char`; each matcher's doc comment records the
pattern it implements and the (greedy/lazy) semantics distilled from Python's
`re.findall`.  All inputs of interest are ASCII, so Python's `\w`, `\s`,
`[A-Z]`, `str.lower` are implemented with their ASCII meanings.
-/

/-- Python `\w` (ASCII): letters, digits, underscore. -/
def isWordChar (c : Char) : Bool := c.isAlpha || c.isDigit || c = '_'

/-- Python `\s` (ASCII): space, tab, newline, carriage return, vertical tab, form feed. -/
def isSpaceChar (c : Char) : Bool :=
  c = ' ' || c = '\t' || c = '\n' || c = '\r' || c = '\x0b' || c = '\x0c'

/-- The character `{` (written via its code point so that no brace appears in a literal). -/
def lbrace : Char := Char.ofNat 123

/-- If `pat` is a prefix of `s`, return the remainder of `s`. -/
def dropLit : List Char → List Char → Option (List Char)
  | [], s => some s
  | _ :: _, [] => none
  | p :: ps, c :: cs => if c = p then dropLit ps cs else none

/-- Python `\s+` followed (in all patterns below) by a non-space token:
one or more whitespace characters, consumed maximally. -/
def needSpaces (s : List Char) : Option (List Char) :=
  match s with
  | c :: cs => if isSpaceChar c then some (cs.dropWhile isSpaceChar) else none
  | [] => none

/-- Maximal run of word characters (`\w*`, greedy) with the remainder. -/
def wordRun (s : List Char) : List Char × List Char := s.span isWordChar

/-- `isPfx pat s`: `pat` is a prefix of `s`. -/
def isPfx : List Char → List Char → Bool
  | [], _ => true
  | _ :: _, [] => false
  | p :: ps, c :: cs => c = p && isPfx ps cs

/-- `containsSub s pat`: `pat` occurs as a contiguous substring of `s`
(Python's `pat in s`). -/
def containsSub : List Char → List Char → Bool
  | [], pat => isPfx pat []
  | s@(_ :: t), pat => isPfx pat s || containsSub t pat

/-- Python `sub in s` on strings. -/
def strContains (s sub : String) : Bool := containsSub s.data sub.data

/-- Python `s.startswith(pre)`. -/
def strStarts (s pre : String) : Bool := isPfx pre.data s.data

/-- Python `s.lower()` (ASCII). -/
def lowerStr (s : String) : String := ⟨s.data.map Char.toLower⟩

/-- Core of Python `s.replace(old, new)`: replace non-overlapping occurrences
left to right (`old` is nonempty in every use in the script).  Fuel-based;
`s.length + 1` fuel always suffices. -/
def replaceCore : Nat → List Char → List Char → List Char → List Char
  | 0, _, _, s => s
  | fuel + 1, pat, repl, s =>
    match dropLit pat s with
    | some r => repl ++ replaceCore fuel pat repl r
    | none =>
      match s with
      | [] => []
      | c :: t => c :: replaceCore fuel pat repl t

/-- Python `s.replace(old, new)`. -/
def strReplace (s pat repl : String) : String :=
  ⟨replaceCore (s.data.length + 1) pat.data repl.data s.data⟩

/-- Generic `re.findall` loop: try the matcher at every position, left to
right; on a match emit its capture and resume at the end of the match
(all patterns below match at least one character, so `s.length + 1` fuel
always suffices). -/
def scanAll {α : Type} (m : List Char → Option (α × List Char)) :
    Nat → List Char → List α
  | 0, _ => []
  | _ + 1, [] => []
  | fuel + 1, s@(_ :: t) =>
    match m s with
    | some (a, rem) => a :: scanAll m fuel rem
    | none => scanAll m fuel t

/-- Matcher for `^import\s+(\w+)` at one position (the `^` with `re.MULTILINE`
is handled by the caller `scanImports`). -/
def matchImportAt (s : List Char) : Option (String × List Char) := do
  let r ← dropLit "import".data s
  let r ← needSpaces r
  match wordRun r with
  | ([], _) => none
  | (w, rest) => some (⟨w⟩, rest)

/-- `re.findall(r'^import\s+(\w+)', content, re.MULTILINE)`: the match may
start only at the beginning of the string or directly after a newline. -/
def scanImports : Nat → List Char → Bool → List String
  | 0, _, _ => []
  | _ + 1, [], _ => []
  | fuel + 1, s@(c :: t), atStart =>
    if atStart then
      match matchImportAt s with
      | some (w, rem) => w :: scanImports fuel rem false
      | none => scanImports fuel t (c = '\n')
    else scanImports fuel t (c = '\n')

/-- In patterns of shape `\w*TOKEN\w*` the trailing `\w*` is greedy and
unconstrained, so the captured group is always the full maximal word run,
provided the run contains `TOKEN`. -/
def hasRepoThenImpl : List Char → Bool
  | [] => false
  | s@(_ :: t) =>
    (if isPfx "Repository".data s
     then containsSub (s.drop ("Repository".data.length)) "Impl".data
     else false) || hasRepoThenImpl t

/-- Optional token-plus-whitespace group `(?:tok\s+)?`: if the literal and the
following `\s+` both match, consume them, otherwise consume nothing.  (If the
group matches but the rest of the pattern fails, the regex backtracks to the
empty alternative, which then necessarily fails too since the following
literals cannot start at `tok`; so no behaviour is lost.) -/
def tryTok (tok : List Char) (s : List Char) : List Char :=
  match (dropLit tok s).bind needSpaces with
  | some r => r
  | none => s

/-- For a capture `\w*(?:t1|t2)` applied to a maximal word run `w`: the
leading `\w*` is greedy, so the group ends at the LAST position of `w` where
`t1` (preferred) or `t2` occurs; returns the capture and the remainder of `w`
after it. -/
def capLast2 (t1 t2 : List Char) : List Char → Option (List Char × List Char)
  | [] => none
  | c :: rest =>
    match capLast2 t1 t2 rest with
    | some (cap, rem) => some (c :: cap, rem)
    | none =>
      if isPfx t1 (c :: rest) then
        some ((c :: rest).take t1.length, (c :: rest).drop t1.length)
      else if isPfx t2 (c :: rest) then
        some ((c :: rest).take t2.length, (c :: rest).drop t2.length)
      else none

/-- Matcher for `public\s+(?:struct|class)\s+(\w+)` (entity pattern). -/
def matchEntityAt (s : List Char) : Option (String × List Char) := do
  let r ← dropLit "public".data s
  let r ← needSpaces r
  let r ← (dropLit "struct".data r) <|> (dropLit "class".data r)
  let r ← needSpaces r
  match wordRun r with
  | ([], _) => none
  | (w, rest) => some (⟨w⟩, rest)

/-- Matcher for `(?:public\s+)?(?:final\s+)?(?:class|protocol)\s+(\w*(?:UseCase|UC))`. -/
def matchUseCaseAAt (s : List Char) : Option (String × List Char) := do
  let s1 := tryTok "public".data s
  let s2 := tryTok "final".data s1
  let r ← (dropLit "class".data s2) <|> (dropLit "protocol".data s2)
  let r ← needSpaces r
  let (w, rest) := wordRun r
  let (cap, remW) ← capLast2 "UseCase".data "UC".data w
  return (⟨cap⟩, remW ++ rest)

/-- Matcher for `public\s+final\s+class\s+(\w+):` (secondary use-case pattern):
the maximal word run must be directly followed by a colon. -/
def matchUseCaseBAt (s : List Char) : Option (String × List Char) := do
  let r ← dropLit "public".data s
  let r ← needSpaces r
  let r ← dropLit "final".data r
  let r ← needSpaces r
  let r ← dropLit "class".data r
  let r ← needSpaces r
  match wordRun r with
  | ([], _) => none
  | (w, rest) =>
    match rest with
    | ':' :: rest2 => some (⟨w⟩, rest2)
    | _ => none

/-- Matcher for `public\s+protocol\s+(\w*Repository\w*)`: the capture is the
full maximal word run, which must contain `Repository`. -/
def matchRepoProtoAt (s : List Char) : Option (String × List Char) := do
  let r ← dropLit "public".data s
  let r ← needSpaces r
  let r ← dropLit "protocol".data r
  let r ← needSpaces r
  match wordRun r with
  | ([], _) => none
  | (w, rest) =>
    if containsSub w "Repository".data then some (⟨w⟩, rest) else none

/-- Matcher for `public\s+final\s+class\s+(\w*Repository\w*Impl\w*)`: the
capture is the full maximal word run, which must contain `Repository`
followed (disjointly, later) by `Impl`. -/
def matchRepoImplAt (s : List Char) : Option (String × List Char) := do
  let r ← dropLit "public".data s
  let r ← needSpaces r
  let r ← dropLit "final".data r
  let r ← needSpaces r
  let r ← dropLit "class".data r
  let r ← needSpaces r
  match wordRun r with
  | ([], _) => none
  | (w, rest) =>
    if hasRepoThenImpl w then some (⟨w⟩, rest) else none

/-- Matcher for `public\s+(?:final\s+)?(?:class|protocol)\s+(\w*Service\w*)`. -/
def matchServiceAAt (s : List Char) : Option (String × List Char) := do
  let r ← dropLit "public".data s
  let r ← needSpaces r
  let s2 := tryTok "final".data r
  let r ← (dropLit "class".data s2) <|> (dropLit "protocol".data s2)
  let r ← needSpaces r
  match wordRun r with
  | ([], _) => none
  | (w, rest) =>
    if containsSub w "Service".data then some (⟨w⟩, rest) else none

/-- Matcher for `public\s+final\s+class\s+(\w*(?:Manager|Stack))`. -/
def matchServiceBAt (s : List Char) : Option (String × List Char) := do
  let r ← dropLit "public".data s
  let r ← needSpaces r
  let r ← dropLit "final".data r
  let r ← needSpaces r
  let r ← dropLit "class".data r
  let r ← needSpaces r
  let (w, rest) := wordRun r
  let (cap, remW) ← capLast2 "Manager".data "Stack".data w
  return (⟨cap⟩, remW ++ rest)

/-- Lazy part of `@Model[^{]*?class\s+(\w+)` (with `re.DOTALL`): skip the
minimal number of non-`{` characters until `class\s+\w+` matches. -/
def modelLazy : Nat → List Char → Option (String × List Char)
  | 0, _ => none
  | _ + 1, [] => none
  | fuel + 1, s@(c :: t) =>
    match (do
      let r ← dropLit "class".data s
      let r ← needSpaces r
      match wordRun r with
      | ([], _) => none
      | (w, rest) => some ((⟨w⟩ : String), rest)) with
    | some res => some res
    | none => if c = lbrace then none else modelLazy fuel t

/-- Matcher for `@Model[^{]*?class\s+(\w+)`. -/
def matchModelAt (s : List Char) : Option (String × List Char) := do
  let r ← dropLit "@Model".data s
  modelLazy (r.length + 1) r

/-- Greedy repetition `(?:,\s*[A-Z]\w+)*` after the first conformance item:
repeat while a comma, optional whitespace, and an uppercase-initial word of
length at least two follow; a failed repetition consumes nothing. -/
def colonMore : Nat → List Char → (List String × List Char)
  | 0, s => ([], s)
  | fuel + 1, s =>
    match s with
    | ',' :: r =>
      let r2 := r.dropWhile isSpaceChar
      match r2 with
      | c :: r3 =>
        if c.isUpper then
          match wordRun r3 with
          | ([], _) => ([], s)
          | (w, rest) =>
            let (more, rem) := colonMore fuel rest
            ((⟨c :: w⟩ : String) :: more, rem)
        else ([], s)
      | [] => ([], s)
    | _ => ([], s)

/-- Matcher for `:\s*([A-Z]\w+(?:,\s*[A-Z]\w+)*)` — an inheritance /
conformance list after a colon.  The Python code then splits the captured
group on `,` and strips whitespace; since each item is exactly an
uppercase-initial word, that recovers exactly the item list returned here. -/
def matchColonAt (s : List Char) : Option (List String × List Char) :=
  match s with
  | ':' :: r =>
    let r2 := r.dropWhile isSpaceChar
    match r2 with
    | c :: r3 =>
      if c.isUpper then
        match wordRun r3 with
        | ([], _) => none
        | (w, rest) =>
          let (more, rem) := colonMore (rest.length + 1) rest
          some ((⟨c :: w⟩ : String) :: more, rem)
      else none
    | [] => none
  | _ => none

/-- Within the `[^)]*` region of the init pattern: the greedy `[^)]*`
backtracks from the right, so the match uses the LAST colon that is directly
preceded by a word character and followed (after `\s*`) by an
uppercase-initial word of length at least two; returns that word (the
captured parameter type) and the remainder of the region after it. -/
def lastInitDep : List Char → Option (String × List Char)
  | [] => none
  | c :: rest =>
    match lastInitDep rest with
    | some res => some res
    | none =>
      if isWordChar c then
        match rest with
        | ':' :: r2 =>
          let r3 := r2.dropWhile isSpaceChar
          match r3 with
          | u :: r4 =>
            if u.isUpper then
              match wordRun r4 with
              | ([], _) => none
              | (w, rem) => some ((⟨u :: w⟩ : String), rem)
            else none
          | [] => none
        | _ => none
      else none

/-- Matcher for `init\([^)]*(\w+):\s*([A-Z]\w+)`; the Python code keeps only
the second capture (the parameter type).  The whole tail of the match lies
inside the maximal run of non-`)` characters after `init(`, since `\w`, `\s`
and `:` never match `)`. -/
def matchInitAt (s : List Char) : Option (String × List Char) := do
  let r ← dropLit "init(".data s
  let (tt, restT) := r.span (fun c => c != ')')
  let (dep, remT) ← lastInitDep tt
  return (dep, remT ++ restT)

/-- `ArchitectureAnalyzer._extract_dependencies`: union of import targets,
conformance-list items minus the fixed deny-list, and captured initializer
parameter types; then `list(set(...))`, modelled by `List.dedup` (Python's
`set` iteration order is unspecified; no later use depends on the order). -/
def extractDependencies (content : Option String) : List String :=
  match content with
  | none => []
  | some text =>
    let s := text.data
    let deps1 := scanImports (s.length + 1) s true
    let protoLists := scanAll matchColonAt (s.length + 1) s
    let deps2 := protoLists.flatten.filter fun p =>
      !(p == "ObservableObject" || p == "Sendable" || p == "Hashable" || p == "Equatable")
    let deps3 := scanAll matchInitAt (s.length + 1) s
    (deps1 ++ deps2 ++ deps3).dedup

/-- `ArchitectureAnalyzer._extract_entities_from_file`. -/
def extractEntitiesFromFile (content : Option String) : List String :=
  match content with
  | none => []
  | some text => scanAll matchEntityAt (text.data.length + 1) text.data

/-- `ArchitectureAnalyzer._extract_usecases_from_file`: the primary use-case
pattern, plus every `public final class X:` capture provided the literal
substring `UseCase` occurs anywhere in the file text; then `list(set(...))`. -/
def extractUsecasesFromFile (content : Option String) : List String :=
  match content with
  | none => []
  | some text =>
    let s := text.data
    let pa := scanAll matchUseCaseAAt (s.length + 1) s
    let classes := scanAll matchUseCaseBAt (s.length + 1) s
    let pb := classes.filter fun _ => containsSub s "UseCase".data
    (pa ++ pb).dedup

/-- `ArchitectureAnalyzer._extract_repository_protocols`. -/
def extractRepositoryProtocols (content : Option String) : List String :=
  match content with
  | none => []
  | some text => scanAll matchRepoProtoAt (text.data.length + 1) text.data

/-- `ArchitectureAnalyzer._extract_swiftdata_models`. -/
def extractSwiftdataModels (content : Option String) : List String :=
  match content with
  | none => []
  | some text => scanAll matchModelAt (text.data.length + 1) text.data

/-- `ArchitectureAnalyzer._extract_repository_implementations`. -/
def extractRepositoryImplementations (content : Option String) : List String :=
  match content with
  | none => []
  | some text => scanAll matchRepoImplAt (text.data.length + 1) text.data

/-- `ArchitectureAnalyzer._extract_services`: the `Service` pattern followed by
the `Manager`/`Stack` pattern; the two result lists are concatenated WITHOUT
deduplication (the Python function returns `services` directly). -/
def extractServices (content : Option String) : List String :=
  match content with
  | none => []
  | some text =>
    let s := text.data
    let sa := scanAll matchServiceAAt (s.length + 1) s
    let sb := scanAll matchServiceBAt (s.length + 1) s
    sa ++ sb

/-! ## Data model and tree scanner -/

/-- The `Component` dataclass of the script. -/
structure Component where
  name : String
  path : String
  type : String
  dependencies : List String
  notes : String
deriving DecidableEq

/-- `ArchitectureAnalyzer.components`: a Python `dict` keyed by component
name, modelled as an insertion-ordered association list (Python dicts
preserve insertion order, and re-assignment keeps the original position). -/
abbrev Registry := List (String × Component)

/-- Python `self.components[name] = comp`: replace in place if the key is
present, otherwise append. -/
def insertComp (reg : Registry) (k : String) (c : Component) : Registry :=
  if reg.any (fun p => p.1 == k) then
    reg.map (fun p => if p.1 == k then (k, c) else p)
  else reg ++ [(k, c)]

/-- Python `self.features.add f`. -/
def addFeature (feats : List String) (f : String) : List String :=
  if f ∈ feats then feats else feats ++ [f]

/-- A Swift source file: its stem (file name without `.swift`) and its text;
`none` models a file whose read or decode fails. -/
structure SwiftFile where
  name : String
  content : Option String
deriving DecidableEq

/-- One feature folder under `Ritualist/Features`. -/
structure FeatureDir where
  dirName : String
  presentation : Option (List SwiftFile)
  hasDataDir : Bool
deriving DecidableEq

/-- The fixed directory layout the scanner walks.  A `none` directory does
not exist; list order models filesystem iteration order.  (Recursive glob
under `Presentation` is flattened into one file list; the `path` field of
nested files is informational only and never used by the renderer.) -/
structure ProjectFS where
  features : Option (List FeatureDir)
  entities : Option (List SwiftFile)
  useCases : Option (List SwiftFile)
  repositoryProtocols : Option (List SwiftFile)
  models : Option (List SwiftFile)
  repositoryImpls : Option (List SwiftFile)
  services : Option (List SwiftFile)
  extensions : Option (List SwiftFile)
deriving DecidableEq

/-- `ArchitectureAnalyzer._scan_presentation_layer` for one feature. -/
def scanPresentation (feature : String) (files : List SwiftFile) (reg : Registry) : Registry :=
  files.foldl (fun reg f =>
    let deps := extractDependencies f.content
    let relPath := "Ritualist/Features/" ++ feature ++ "/Presentation/" ++ f.name ++ ".swift"
    if strContains f.name "View" && !(strContains f.name "Model") then
      insertComp reg f.name ⟨f.name, relPath, "view", deps, feature ++ " feature view"⟩
    else if strContains f.name "ViewModel" then
      insertComp reg f.name ⟨f.name, relPath, "viewmodel", deps, feature ++ " feature view model"⟩
    else reg) reg

/-- `ArchitectureAnalyzer._scan_features`.  Returns `none` when some
non-hidden feature folder has a `Data` subfolder: the script then calls
`self._scan_feature_data_layer`, a method that is defined nowhere in the
file, so the scan raises `AttributeError`, aborts, and no registry is ever
produced. -/
def scanFeatures (dirs : Option (List FeatureDir)) : Option (List String × Registry) :=
  match dirs with
  | none => some ([], [])
  | some ds =>
    if ds.any (fun d => !(strStarts d.dirName ".") && d.hasDataDir) then none
    else some (ds.foldl (fun (acc : List String × Registry) d =>
      if strStarts d.dirName "." then acc
      else
        let feats := addFeature acc.1 d.dirName
        let reg := match d.presentation with
          | some fs => scanPresentation d.dirName fs acc.2
          | none => acc.2
        (feats, reg)) ([], []))

/-- Entity part of `ArchitectureAnalyzer._scan_domain_layer`. -/
def scanEntities (files : Option (List SwiftFile)) (reg : Registry) : Registry :=
  (files.getD []).foldl (fun reg f =>
    (extractEntitiesFromFile f.content).foldl (fun reg entity =>
      insertComp reg entity
        ⟨entity, "Ritualist/Domain/Entities/" ++ f.name ++ ".swift", "entity", [],
          "Domain entity"⟩) reg) reg

/-- Use-case part of `ArchitectureAnalyzer._scan_domain_layer`. -/
def scanUseCases (files : Option (List SwiftFile)) (reg : Registry) : Registry :=
  (files.getD []).foldl (fun reg f =>
    (extractUsecasesFromFile f.content).foldl (fun reg usecase =>
      insertComp reg usecase
        ⟨usecase, "Ritualist/Domain/UseCases/" ++ f.name ++ ".swift", "usecase",
          extractDependencies f.content, "Business logic use case"⟩) reg) reg

/-- Repository-protocol part of `ArchitectureAnalyzer._scan_domain_layer`. -/
def scanRepositoryProtocols (files : Option (List SwiftFile)) (reg : Registry) : Registry :=
  (files.getD []).foldl (fun reg f =>
    (extractRepositoryProtocols f.content).foldl (fun reg repo =>
      insertComp reg repo
        ⟨repo, "Ritualist/Domain/Repositories/" ++ f.name ++ ".swift", "repository_protocol",
          [], "Repository protocol"⟩) reg) reg

/-- Model part of `ArchitectureAnalyzer._scan_data_layer`. -/
def scanModels (files : Option (List SwiftFile)) (reg : Registry) : Registry :=
  (files.getD []).foldl (fun reg f =>
    (extractSwiftdataModels f.content).foldl (fun reg model =>
      insertComp reg model
        ⟨model, "Ritualist/Data/Models/" ++ f.name ++ ".swift", "swiftdata_model", [],
          "SwiftData persistence model"⟩) reg) reg

/-- Repository-implementation part of `ArchitectureAnalyzer._scan_data_layer`. -/
def scanRepositoryImpls (files : Option (List SwiftFile)) (reg : Registry) : Registry :=
  (files.getD []).foldl (fun reg f =>
    (extractRepositoryImplementations f.content).foldl (fun reg repo =>
      insertComp reg repo
        ⟨repo, "Ritualist/Data/Repositories/" ++ f.name ++ ".swift", "repository_impl",
          extractDependencies f.content, "Repository implementation"⟩) reg) reg

/-- `ArchitectureAnalyzer._scan_core_services`. -/
def scanServices (files : Option (List SwiftFile)) (reg : Registry) : Registry :=
  (files.getD []).foldl (fun reg f =>
    (extractServices f.content).foldl (fun reg service =>
      insertComp reg service
        ⟨service, "Ritualist/Core/Services/" ++ f.name ++ ".swift", "service",
          extractDependencies f.content, "Core service"⟩) reg) reg

/-- `ArchitectureAnalyzer._scan_dependency_injection`: only files whose stem
matches the glob `Container+*.swift`. -/
def scanDI (files : Option (List SwiftFile)) (reg : Registry) : Registry :=
  (files.getD []).foldl (fun reg f =>
    if strStarts f.name "Container+" then
      insertComp reg f.name
        ⟨f.name, "Ritualist/Extensions/" ++ f.name ++ ".swift", "di_container",
          extractDependencies f.content, "Dependency injection container"⟩
    else reg) reg

/-- `ArchitectureAnalyzer.analyze_codebase`: the five scans in order.
`none` models the run aborting with the `AttributeError` described at
`scanFeatures`. -/
def analyzeCodebase (fs : ProjectFS) : Option (Registry × List String) :=
  match scanFeatures fs.features with
  | none => none
  | some (feats, reg) =>
    let reg := scanEntities fs.entities reg
    let reg := scanUseCases fs.useCases reg
    let reg := scanRepositoryProtocols fs.repositoryProtocols reg
    let reg := scanModels fs.models reg
    let reg := scanRepositoryImpls fs.repositoryImpls reg
    let reg := scanServices fs.services reg
    let reg := scanDI fs.extensions reg
    some (reg, feats)

/-! ## Diagram renderer (`PlantUMLGenerator`)

The generation timestamp (`datetime.now().strftime(...)`) is the one
external input of the renderer and is modelled as a `String` parameter.
Literal braces of the PlantUML text are written `\x7b` / `\x7d`. -/

/-- Python string `<=` (code-point lexicographic, total). -/
def charListLe : List Char → List Char → Bool
  | [], _ => true
  | _ :: _, [] => false
  | a :: xs, b :: ys =>
    if a.toNat < b.toNat then true
    else if b.toNat < a.toNat then false
    else charListLe xs ys

/-- Stable insertion into an ascending list. -/
def sortedInsert (x : String) : List String → List String
  | [] => [x]
  | y :: ys => if charListLe x.data y.data then x :: y :: ys else y :: sortedInsert x ys

/-- Python `sorted` on strings (ascending, code-point order). -/
def sortStrings (l : List String) : List String := l.foldr sortedInsert []

/-- The `layer += ...` / `relationships += ...` accumulation loops. -/
def concatAll (l : List String) : String := l.foldl (fun a b => a ++ b) ""

/-- `PlantUMLGenerator._generate_header` around the embedded timestamp. -/
def generateHeader (timestamp : String) : String :=
  "@startuml Ritualist iOS Architecture\n\n!theme aws-orange\nskinparam backgroundColor white\nskinparam componentStyle rectangle\nskinparam packageStyle rectangle\n\ntitle Ritualist iOS App - Clean Architecture Overview\nnote top : Auto-generated on " ++
  timestamp ++ "\n\n"

/-- `PlantUMLGenerator._generate_application_layer` (fully static). -/
def generateApplicationLayer : String :=
  "' ==== Application Layer ====\npackage \"Application Layer\" as AppLayer \x7b\n    component \"RitualistApp\" as RitualistApp\n    component \"RootTabView\" as RootTabView\n    component \"AppDelegate\" as AppDelegate\n\x7d\n\n"

/-- The `component "X" as X` line used for views, view-models, use-cases,
models, repository implementations, services and DI containers. -/
def componentLine (c : Component) : String :=
  "        component \"" ++ c.name ++ "\" as " ++ c.name ++ "\n"

/-- The `component "X" as XEntity` line of the domain layer. -/
def entityLine (c : Component) : String :=
  "        component \"" ++ c.name ++ "\" as " ++ c.name ++ "Entity\n"

/-- The `interface "X" as IX` line of the domain layer. -/
def repoProtoLine (c : Component) : String :=
  "        interface \"" ++ c.name ++ "\" as I" ++ c.name ++ "\n"

/-- `PlantUMLGenerator._generate_features_layer`. -/
def generateFeaturesLayer (components : List Component) (features : List String) : String :=
  "' ==== Features Layer ====\npackage \"Features Layer\" as FeaturesLayer \x7b\n" ++
  concatAll ((sortStrings features).map (fun feature =>
    "    package \"" ++ feature ++ " Feature\" as " ++ feature ++ "Feature \x7b\n" ++
    concatAll ((components.filter (fun c =>
      c.type == "view" && strContains (lowerStr c.notes) (lowerStr feature))).map componentLine) ++
    concatAll ((components.filter (fun c =>
      c.type == "viewmodel" && strContains (lowerStr c.notes) (lowerStr feature))).map componentLine) ++
    "    \x7d\n\n")) ++
  "\x7d\n\n"

/-- `PlantUMLGenerator._generate_domain_layer`. -/
def generateDomainLayer (components : List Component) : String :=
  "' ==== Domain Layer ====\npackage \"Domain Layer\" as DomainLayer \x7b\n    package \"Entities\" as DomainEntities \x7b\n" ++
  concatAll ((components.filter (fun c => c.type == "entity")).map entityLine) ++
  "    \x7d\n    \n    package \"Use Cases\" as UseCases \x7b\n" ++
  concatAll ((components.filter (fun c => c.type == "usecase")).map componentLine) ++
  "    \x7d\n    \n    package \"Repository Protocols\" as RepoProtocols \x7b\n" ++
  concatAll ((components.filter (fun c => c.type == "repository_protocol")).map repoProtoLine) ++
  "    \x7d\n\x7d\n\n"

/-- `PlantUMLGenerator._generate_data_layer`. -/
def generateDataLayer (components : List Component) : String :=
  "' ==== Data Layer ====\npackage \"Data Layer\" as DataLayer \x7b\n    package \"SwiftData Models\" as SDModels \x7b\n" ++
  concatAll ((components.filter (fun c => c.type == "swiftdata_model")).map componentLine) ++
  "    \x7d\n    \n    package \"Repository Implementations\" as RepoImpl \x7b\n" ++
  concatAll ((components.filter (fun c => c.type == "repository_impl")).map componentLine) ++
  "    \x7d\n    \n    component \"SwiftDataStack\" as SwiftDataStack\n\x7d\n\n"

/-- `PlantUMLGenerator._generate_core_layer`. -/
def generateCoreLayer (components : List Component) : String :=
  "' ==== Core Layer ====\npackage \"Core Layer\" as CoreLayer \x7b\n    package \"Services\" as Services \x7b\n" ++
  concatAll ((components.filter (fun c => c.type == "service")).map componentLine) ++
  "    \x7d\n\x7d\n\n"

/-- `PlantUMLGenerator._generate_di_layer`. -/
def generateDiLayer (components : List Component) : String :=
  "' ==== Dependency Injection ====\npackage \"Dependency Injection\" as DILayer \x7b\n    component \"Container (FactoryKit)\" as Container\n    \n    package \"Container Extensions\" as ContainerExt \x7b\n" ++
  concatAll ((components.filter (fun c => c.type == "di_container")).map componentLine) ++
  "    \x7d\n\x7d\n\n"

/-- `PlantUMLGenerator._generate_layers`. -/
def generateLayers (components : List Component) (features : List String) : String :=
  generateApplicationLayer ++ generateFeaturesLayer components features ++
  generateDomainLayer components ++ generateDataLayer components ++
  generateCoreLayer components ++ generateDiLayer components

/-- The view → view-model `observes` edges: for each view, the stem is
`view.name.replace('View', '')` — every occurrence of `View` removed — and
`next(...)` pairs it with the FIRST view-model (in registry order) whose name
starts with that stem, if any. -/
def observesEdges (components : List Component) : List String :=
  let views := components.filter (fun c => c.type == "view")
  let viewmodels := components.filter (fun c => c.type == "viewmodel")
  views.filterMap (fun view =>
    let viewBase := strReplace view.name "View" ""
    (viewmodels.find? (fun vm => strStarts vm.name viewBase)).map
      (fun vm => view.name ++ " --> " ++ vm.name ++ " : observes\n"))

/-- The protocol → implementation `implements` edges: for each protocol, the
first implementation whose name contains `protocol.name.replace('Repository', '')`. -/
def implementsEdges (components : List Component) : List String :=
  let repoProtocols := components.filter (fun c => c.type == "repository_protocol")
  let repoImpls := components.filter (fun c => c.type == "repository_impl")
  repoProtocols.filterMap (fun prot =>
    (repoImpls.find? (fun impl => strContains impl.name (strReplace prot.name "Repository" ""))).map
      (fun impl => impl.name ++ " .up.|> I" ++ prot.name ++ " : implements\n"))

/-- `PlantUMLGenerator._generate_relationships`, including the unconditional
hard-coded security relationship line. -/
def generateRelationships (components : List Component) : String :=
  "' ===== RELATIONSHIPS =====\n\n" ++ "' MVVM Pattern\n" ++
  concatAll (observesEdges components) ++
  "\n' Repository Pattern\n" ++
  concatAll (implementsEdges components) ++
  "\n' Security Layer\nPaywallService --> SecureSubscriptionService : validates purchases\n\n"

/-- `PlantUMLGenerator._generate_notes` (fully static). -/
def generateNotes : String :=
  "' Architectural Notes\nnote top of DomainLayer : **Domain Layer**\\n- Pure business logic\\n- No external dependencies\\n- Repository protocols only\n\nnote top of DataLayer : **Data Layer**\\n- SwiftData persistence\\n- Entity ↔ Model mapping\\n- Repository implementations\n\nnote top of CoreLayer : **Core Layer**\\n- Shared services\\n- Security validation\\n- Feature gating\n\n"

/-- `PlantUMLGenerator._generate_footer`. -/
def generateFooter : String := "@enduml"

/-- `PlantUMLGenerator.generate_diagram`: the renderer iterates
`self.components.values()`, i.e. the registry values in insertion order. -/
def generateDiagram (reg : Registry) (features : List String) (timestamp : String) : String :=
  let components := reg.map Prod.snd
  generateHeader timestamp ++ generateLayers components features ++
  generateRelationships components ++ generateNotes ++ generateFooter

/-! ## Basic lemmas about the string utilities -/

theorem isPfx_refl (s : List Char) : isPfx s s = true := by
  induction s with
  | nil => rfl
  | cons c t ih => simp [isPfx, ih]

theorem isPfx_append (pat s r : List Char) (h : isPfx pat s = true) :
    isPfx pat (s ++ r) = true := by
  induction pat generalizing s with
  | nil => rfl
  | cons p ps ih =>
    cases s with
    | nil => simp [isPfx] at h
    | cons c t =>
      simp [isPfx] at h ⊢
      exact ⟨h.1, ih t h.2⟩

theorem containsSub_of_isPfx {s pat : List Char} (h : isPfx pat s = true) :
    containsSub s pat = true := by
  cases s with
  | nil => simpa [containsSub] using h
  | cons c t => simp [containsSub, h]

theorem containsSub_append_right {b pat : List Char} (a : List Char)
    (h : containsSub b pat = true) : containsSub (a ++ b) pat = true := by
  induction a with
  | nil => simpa using h
  | cons c t ih => simp [containsSub]; right; exact ih

theorem containsSub_append_left {a pat : List Char} (b : List Char)
    (h : containsSub a pat = true) : containsSub (a ++ b) pat = true := by
  induction a with
  | nil =>
    cases pat with
    | nil => exact containsSub_of_isPfx (by rfl)
    | cons p ps => simp [containsSub, isPfx] at h
  | cons c t ih =>
    simp [containsSub] at h ⊢
    cases h with
    | inl hp => exact Or.inl (isPfx_append _ _ _ hp)
    | inr hc => exact Or.inr (ih hc)

theorem strContains_append_left (a b sub : String) (h : strContains a sub = true) :
    strContains (a ++ b) sub = true := by
  unfold strContains at h ⊢
  rw [String.data_append]
  exact containsSub_append_left _ h

theorem strContains_append_right (a b sub : String) (h : strContains b sub = true) :
    strContains (a ++ b) sub = true := by
  unfold strContains at h ⊢
  rw [String.data_append]
  exact containsSub_append_right _ h

theorem strContains_self (s : String) : strContains s s = true :=
  containsSub_of_isPfx (isPfx_refl _)

theorem concatAll_foldl (l : List String) (acc : String) :
    List.foldl (fun a b => a ++ b) acc l = acc ++ concatAll l := by
  induction l generalizing acc with
  | nil => simp [concatAll]
  | cons x xs ih =>
    show List.foldl _ (acc ++ x) xs = _
    rw [ih (acc ++ x)]
    have hx : List.foldl (fun a b => a ++ b) ("" ++ x) xs = ("" ++ x) ++ concatAll xs := ih _
    show _ = acc ++ concatAll (x :: xs)
    have : concatAll (x :: xs) = x ++ concatAll xs := by
      show List.foldl _ ("" ++ x) xs = _
      rw [hx]; simp
    rw [this, String.append_assoc]

theorem concatAll_cons (x : String) (xs : List String) :
    concatAll (x :: xs) = x ++ concatAll xs := by
  show List.foldl _ ("" ++ x) xs = _
  rw [concatAll_foldl]; simp

theorem strContains_concatAll {l : List String} {s sub : String} (hs : s ∈ l)
    (h : strContains s sub = true) : strContains (concatAll l) sub = true := by
  induction l with
  | nil => cases hs
  | cons x xs ih =>
    rw [concatAll_cons]
    rcases List.mem_cons.mp hs with rfl | hmem
    · exact strContains_append_left _ _ _ h
    · exact strContains_append_right _ _ _ (ih hmem)

theorem mem_sortedInsert (x y : String) (l : List String) :
    y ∈ sortedInsert x l ↔ y = x ∨ y ∈ l := by
  induction l with
  | nil => simp [sortedInsert]
  | cons z zs ih =>
    unfold sortedInsert
    by_cases h : charListLe x.data z.data
    · simp [h]
    · simp [h, ih]
      tauto

theorem mem_sortStrings (x : String) (l : List String) :
    x ∈ sortStrings l ↔ x ∈ l := by
  induction l with
  | nil => simp [sortStrings]
  | cons z zs ih =>
    show x ∈ sortedInsert z (sortStrings zs) ↔ _
    rw [mem_sortedInsert, ih]
    simp

/-! ## Lemmas about the registry -/

/-- The key list of a registry. -/
def keysOf (reg : Registry) : List String := reg.map Prod.fst

theorem mem_insertComp {reg : Registry} {k : String} {c : Component}
    {p : String × Component} (h : p ∈ insertComp reg k c) :
    p = (k, c) ∨ p ∈ reg := by
  unfold insertComp at h
  by_cases ha : (reg.any (fun p => p.1 == k)) = true
  · rw [if_pos ha] at h
    obtain ⟨q, hq, hpq⟩ := List.mem_map.mp h
    by_cases hqk : (q.1 == k) = true
    · left; rw [if_pos hqk] at hpq; exact hpq.symm
    · right; rw [if_neg hqk] at hpq; exact hpq ▸ hq
  · rw [if_neg ha] at h
    rcases List.mem_append.mp h with hm | hm
    · exact Or.inr hm
    · exact Or.inl (List.mem_singleton.mp hm)

theorem keysOf_insertComp_nodup {reg : Registry} {k : String} {c : Component}
    (h : (keysOf reg).Nodup) : (keysOf (insertComp reg k c)).Nodup := by
  unfold insertComp
  by_cases ha : (reg.any (fun p => p.1 == k)) = true
  · rw [if_pos ha]
    have heq : keysOf (reg.map (fun p => if p.1 == k then (k, c) else p)) = keysOf reg := by
      unfold keysOf
      rw [List.map_map]
      apply List.map_congr_left
      intro p _
      by_cases hpk : (p.1 == k) = true
      · have hk : p.1 = k := eq_of_beq hpk
        show (if p.1 == k then (k, c) else p).1 = p.1
        rw [if_pos hpk]
        exact hk.symm
      · show (if p.1 == k then (k, c) else p).1 = p.1
        rw [if_neg hpk]
    exact heq ▸ h
  · rw [if_neg ha]
    unfold keysOf
    rw [List.map_append]
    simp only [List.map_cons, List.map_nil]
    rw [List.nodup_append]
    refine ⟨h, List.nodup_singleton _, ?_⟩
    intro a hmem hb
    simp only [List.mem_singleton] at hb
    subst hb
    apply ha
    rw [List.any_eq_true]
    obtain ⟨p, hp, hfst⟩ := List.mem_map.mp hmem
    exact ⟨p, hp, by simp [hfst]⟩

/-! ## Invariants of every registry the scanner can produce -/

/-- The nine `type` tags the scanner ever assigns. -/
def recognizedKinds : List String :=
  ["view", "viewmodel", "entity", "usecase", "repository_protocol",
   "swiftdata_model", "repository_impl", "service", "di_container"]

/-- Invariant of every key/component pair stored by the scanner: the key is
the component name, the kind is recognized, views and view-models carry
their owning feature inside `notes`, and the three kinds scanned without
dependency extraction carry an empty dependency list. -/
def goodComponent (feats : List String) (k : String) (c : Component) : Prop :=
  k = c.name ∧ c.type ∈ recognizedKinds ∧
  (c.type = "view" → ∃ f ∈ feats, c.notes = f ++ " feature view") ∧
  (c.type = "viewmodel" → ∃ f ∈ feats, c.notes = f ++ " feature view model") ∧
  ((c.type = "entity" ∨ c.type = "repository_protocol" ∨ c.type = "swiftdata_model") →
    c.dependencies = [])

/-- Invariant of the whole registry. -/
def goodRegistry (feats : List String) (reg : Registry) : Prop :=
  (keysOf reg).Nodup ∧ ∀ p ∈ reg, goodComponent feats p.1 p.2

theorem goodComponent_mono {feats feats' : List String} {k : String} {c : Component}
    (hsub : ∀ f, f ∈ feats → f ∈ feats') (h : goodComponent feats k c) :
    goodComponent feats' k c := by
  obtain ⟨h1, h2, h3, h4, h5⟩ := h
  refine ⟨h1, h2, ?_, ?_, h5⟩
  · intro hv
    obtain ⟨f, hf, hn⟩ := h3 hv
    exact ⟨f, hsub f hf, hn⟩
  · intro hv
    obtain ⟨f, hf, hn⟩ := h4 hv
    exact ⟨f, hsub f hf, hn⟩

theorem goodRegistry_mono {feats feats' : List String} {reg : Registry}
    (hsub : ∀ f, f ∈ feats → f ∈ feats') (h : goodRegistry feats reg) :
    goodRegistry feats' reg :=
  ⟨h.1, fun p hp => goodComponent_mono hsub (h.2 p hp)⟩

theorem goodRegistry_insert {feats : List String} {reg : Registry} {k : String}
    {c : Component} (hr : goodRegistry feats reg) (hc : goodComponent feats k c) :
    goodRegistry feats (insertComp reg k c) := by
  refine ⟨keysOf_insertComp_nodup hr.1, fun p hp => ?_⟩
  rcases mem_insertComp hp with rfl | hmem
  · exact hc
  · exact hr.2 p hmem

/-- Fold preservation helper. -/
theorem foldl_preserve {α β : Type} {P : β → Prop} (f : β → α → β)
    (l : List α) (init : β) (h0 : P init)
    (hstep : ∀ b a, a ∈ l → P b → P (f b a)) : P (List.foldl f init l) := by
  induction l generalizing init with
  | nil => exact h0
  | cons x xs ih =>
    exact ih (f init x) (hstep init x (List.mem_cons_self _ _) h0)
      (fun b a ha hb => hstep b a (List.mem_cons_of_mem _ ha) hb)

theorem mem_addFeature_self (feats : List String) (f : String) :
    f ∈ addFeature feats f := by
  unfold addFeature
  by_cases h : f ∈ feats
  · rwa [if_pos h]
  · rw [if_neg h]; exact List.mem_append_right _ (List.mem_singleton.mpr rfl)

theorem mem_addFeature_of_mem {feats : List String} {g : String} (f : String)
    (h : g ∈ feats) : g ∈ addFeature feats f := by
  unfold addFeature
  by_cases hf : f ∈ feats
  · rwa [if_pos hf]
  · rw [if_neg hf]; exact List.mem_append_left _ h

theorem scanPresentation_good {feats : List String} {feature : String}
    {files : List SwiftFile} {reg : Registry} (hf : feature ∈ feats)
    (h : goodRegistry feats reg) :
    goodRegistry feats (scanPresentation feature files reg) := by
  unfold scanPresentation
  apply foldl_preserve _ _ _ h
  intro reg f _ hreg
  by_cases hv : (strContains f.name "View" && !(strContains f.name "Model")) = true
  · rw [if_pos hv]
    apply goodRegistry_insert hreg
    refine ⟨rfl, by simp [recognizedKinds], ?_, ?_, ?_⟩
    · intro _; exact ⟨feature, hf, rfl⟩
    · intro hvm; simp at hvm
    · intro hk; simp at hk
  · rw [if_neg hv]
    by_cases hm : (strContains f.name "ViewModel") = true
    · rw [if_pos hm]
      apply goodRegistry_insert hreg
      refine ⟨rfl, by simp [recognizedKinds], ?_, ?_, ?_⟩
      · intro hvw; simp at hvw
      · intro _; exact ⟨feature, hf, rfl⟩
      · intro hk; simp at hk
    · rw [if_neg hm]
      exact hreg

theorem scanFeatures_good {dirs : Option (List FeatureDir)} {feats : List String}
    {reg : Registry} (h : scanFeatures dirs = some (feats, reg)) :
    goodRegistry feats reg := by
  cases dirs with
  | none =>
    simp only [scanFeatures, Option.some.injEq, Prod.mk.injEq] at h
    obtain ⟨h1, h2⟩ := h
    subst h1; subst h2
    exact ⟨List.nodup_nil, by intro p hp; cases hp⟩
  | some ds =>
    simp only [scanFeatures] at h
    by_cases hd : (ds.any (fun d => !(strStarts d.dirName ".") && d.hasDataDir)) = true
    · rw [if_pos hd] at h; cases h
    · rw [if_neg hd] at h
      simp only [Option.some.injEq] at h
      have hinv : goodRegistry
          (ds.foldl (fun (acc : List String × Registry) d =>
            if strStarts d.dirName "." then acc
            else
              (addFeature acc.1 d.dirName,
                match d.presentation with
                | some fs => scanPresentation d.dirName fs acc.2
                | none => acc.2)) ([], [])).1
          (ds.foldl (fun (acc : List String × Registry) d =>
            if strStarts d.dirName "." then acc
            else
              (addFeature acc.1 d.dirName,
                match d.presentation with
                | some fs => scanPresentation d.dirName fs acc.2
                | none => acc.2)) ([], [])).2 := by
        apply foldl_preserve (P := fun acc : List String × Registry => goodRegistry acc.1 acc.2)
        · exact ⟨List.nodup_nil, by intro p hp; cases hp⟩
        · intro acc d _ hacc
          by_cases hdot : (strStarts d.dirName ".") = true
          · rw [if_pos hdot]; exact hacc
          · rw [if_neg hdot]
            have hmono : goodRegistry (addFeature acc.1 d.dirName) acc.2 :=
              goodRegistry_mono (fun f hf => mem_addFeature_of_mem _ hf) hacc
            cases hp : d.presentation with
            | none => simpa using hmono
            | some fs =>
              simp only
              exact scanPresentation_good (mem_addFeature_self _ _) hmono
      rw [h] at hinv
      exact hinv

theorem scanEntities_good {feats : List String} {files : Option (List SwiftFile)}
    {reg : Registry} (h : goodRegistry feats reg) :
    goodRegistry feats (scanEntities files reg) := by
  unfold scanEntities
  apply foldl_preserve _ _ _ h
  intro reg f _ hreg
  apply foldl_preserve _ _ _ hreg
  intro reg entity _ hreg2
  apply goodRegistry_insert hreg2
  refine ⟨rfl, by simp [recognizedKinds], ?_, ?_, fun _ => rfl⟩
  · intro hv; simp at hv
  · intro hv; simp at hv

theorem scanUseCases_good {feats : List String} {files : Option (List SwiftFile)}
    {reg : Registry} (h : goodRegistry feats reg) :
    goodRegistry feats (scanUseCases files reg) := by
  unfold scanUseCases
  apply foldl_preserve _ _ _ h
  intro reg f _ hreg
  apply foldl_preserve _ _ _ hreg
  intro reg usecase _ hreg2
  apply goodRegistry_insert hreg2
  refine ⟨rfl, by simp [recognizedKinds], ?_, ?_, ?_⟩
  · intro hv; simp at hv
  · intro hv; simp at hv
  · intro hv; simp at hv

theorem scanRepositoryProtocols_good {feats : List String}
    {files : Option (List SwiftFile)} {reg : Registry} (h : goodRegistry feats reg) :
    goodRegistry feats (scanRepositoryProtocols files reg) := by
  unfold scanRepositoryProtocols
  apply foldl_preserve _ _ _ h
  intro reg f _ hreg
  apply foldl_preserve _ _ _ hreg
  intro reg repo _ hreg2
  apply goodRegistry_insert hreg2
  refine ⟨rfl, by simp [recognizedKinds], ?_, ?_, fun _ => rfl⟩
  · intro hv; simp at hv
  · intro hv; simp at hv

theorem scanModels_good {feats : List String} {files : Option (List SwiftFile)}
    {reg : Registry} (h : goodRegistry feats reg) :
    goodRegistry feats (scanModels files reg) := by
  unfold scanModels
  apply foldl_preserve _ _ _ h
  intro reg f _ hreg
  apply foldl_preserve _ _ _ hreg
  intro reg model _ hreg2
  apply goodRegistry_insert hreg2
  refine ⟨rfl, by simp [recognizedKinds], ?_, ?_, fun _ => rfl⟩
  · intro hv; simp at hv
  · intro hv; simp at hv

theorem scanRepositoryImpls_good {feats : List String} {files : Option (List SwiftFile)}
    {reg : Registry} (h : goodRegistry feats reg) :
    goodRegistry feats (scanRepositoryImpls files reg) := by
  unfold scanRepositoryImpls
  apply foldl_preserve _ _ _ h
  intro reg f _ hreg
  apply foldl_preserve _ _ _ hreg
  intro reg repo _ hreg2
  apply goodRegistry_insert hreg2
  refine ⟨rfl, by simp [recognizedKinds], ?_, ?_, ?_⟩
  · intro hv; simp at hv
  · intro hv; simp at hv
  · intro hv; simp at hv

theorem scanServices_good {feats : List String} {files : Option (List SwiftFile)}
    {reg : Registry} (h : goodRegistry feats reg) :
    goodRegistry feats (scanServices files reg) := by
  unfold scanServices
  apply foldl_preserve _ _ _ h
  intro reg f _ hreg
  apply foldl_preserve _ _ _ hreg
  intro reg service _ hreg2
  apply goodRegistry_insert hreg2
  refine ⟨rfl, by simp [recognizedKinds], ?_, ?_, ?_⟩
  · intro hv; simp at hv
  · intro hv; simp at hv
  · intro hv; simp at hv

theorem scanDI_good {feats : List String} {files : Option (List SwiftFile)}
    {reg : Registry} (h : goodRegistry feats reg) :
    goodRegistry feats (scanDI files reg) := by
  unfold scanDI
  apply foldl_preserve _ _ _ h
  intro reg f _ hreg
  by_cases hc : (strStarts f.name "Container+") = true
  · rw [if_pos hc]
    apply goodRegistry_insert hreg
    refine ⟨rfl, by simp [recognizedKinds], ?_, ?_, ?_⟩
    · intro hv; simp at hv
    · intro hv; simp at hv
    · intro hv; simp at hv
  · rw [if_neg hc]
    exact hreg

/-- Every registry `analyze_codebase` produces satisfies the invariant. -/
theorem analyzeCodebase_good {fs : ProjectFS} {reg : Registry} {feats : List String}
    (h : analyzeCodebase fs = some (reg, feats)) : goodRegistry feats reg := by
  unfold analyzeCodebase at h
  cases hs : scanFeatures fs.features with
  | none => rw [hs] at h; cases h
  | some pr =>
    rw [hs] at h
    obtain ⟨f0, r0⟩ := pr
    simp only [Option.some.injEq, Prod.mk.injEq] at h
    obtain ⟨h1, h2⟩ := h
    subst h1; subst h2
    exact scanDI_good (scanServices_good (scanRepositoryImpls_good (scanModels_good
      (scanRepositoryProtocols_good (scanUseCases_good (scanEntities_good
        (scanFeatures_good hs)))))))

/-! ## Every scanned component is rendered in its layer section -/

theorem strContains_componentLine (c : Component) :
    strContains (componentLine c) c.name = true := by
  unfold componentLine
  apply strContains_append_left
  apply strContains_append_right
  exact strContains_self _

theorem strContains_entityLine (c : Component) :
    strContains (entityLine c) c.name = true := by
  unfold entityLine
  apply strContains_append_left
  apply strContains_append_right
  exact strContains_self _

theorem strContains_repoProtoLine (c : Component) :
    strContains (repoProtoLine c) c.name = true := by
  unfold repoProtoLine
  apply strContains_append_left
  apply strContains_append_right
  exact strContains_self _

theorem lowerStr_append (a b : String) : lowerStr (a ++ b) = lowerStr a ++ lowerStr b := by
  cases a with
  | mk da =>
    cases b with
    | mk db =>
      show (⟨((da ++ db).map Char.toLower)⟩ : String) = ⟨da.map Char.toLower ++ db.map Char.toLower⟩
      exact congrArg String.mk (List.map_append _ _ _)

/-- Membership in a kind filter, for a component of that kind. -/
theorem mem_kind_filter {components : List Component} {c : Component} (kind : String)
    (hc : c ∈ components) (ht : c.type = kind) :
    c ∈ components.filter (fun c => c.type == kind) :=
  List.mem_filter.mpr ⟨hc, by simp [ht]⟩

theorem contains_concatAll_map_line {components : List Component} {c : Component}
    (line : Component → String) (hline : strContains (line c) c.name = true)
    (hc : c ∈ components) :
    strContains (concatAll (components.map line)) c.name = true :=
  strContains_concatAll (List.mem_map_of_mem line hc) hline

/-- A component of a recognized kind is rendered, by name, inside
`generateLayers` (the views and view-models inside their owning feature's
package, everything else in its fixed layer package). -/
theorem generateLayers_contains {components : List Component} {feats : List String}
    {k : String} {c : Component} (hc : c ∈ components)
    (hgood : goodComponent feats k c) :
    strContains (generateLayers components feats) c.name = true := by
  obtain ⟨-, hkind, hview, hviewmodel, -⟩ := hgood
  simp only [recognizedKinds, List.mem_cons, List.mem_singleton, List.not_mem_nil,
    or_false] at hkind
  unfold generateLayers
  rcases hkind with ht | ht | ht | ht | ht | ht | ht | ht | ht
  · -- view: features layer
    obtain ⟨f, hf, hnotes⟩ := hview ht
    apply strContains_append_left
    apply strContains_append_left
    apply strContains_append_left
    apply strContains_append_left
    apply strContains_append_right
    unfold generateFeaturesLayer
    apply strContains_append_left
    apply strContains_append_right
    apply strContains_concatAll
      (List.mem_map_of_mem _ ((mem_sortStrings f feats).mpr hf))
    apply strContains_append_left
    apply strContains_append_left
    apply strContains_append_right
    apply contains_concatAll_map_line componentLine (strContains_componentLine c)
    apply List.mem_filter.mpr
    refine ⟨hc, ?_⟩
    rw [Bool.and_eq_true]
    constructor
    · simp [ht]
    · rw [hnotes, lowerStr_append]
      apply strContains_append_left
      exact strContains_self _
  · -- viewmodel: features layer
    obtain ⟨f, hf, hnotes⟩ := hviewmodel ht
    apply strContains_append_left
    apply strContains_append_left
    apply strContains_append_left
    apply strContains_append_left
    apply strContains_append_right
    unfold generateFeaturesLayer
    apply strContains_append_left
    apply strContains_append_right
    apply strContains_concatAll
      (List.mem_map_of_mem _ ((mem_sortStrings f feats).mpr hf))
    apply strContains_append_left
    apply strContains_append_right
    apply contains_concatAll_map_line componentLine (strContains_componentLine c)
    apply List.mem_filter.mpr
    refine ⟨hc, ?_⟩
    rw [Bool.and_eq_true]
    constructor
    · simp [ht]
    · rw [hnotes, lowerStr_append]
      apply strContains_append_left
      exact strContains_self _
  · -- entity: domain layer
    apply strContains_append_left
    apply strContains_append_left
    apply strContains_append_left
    apply strContains_append_right
    unfold generateDomainLayer
    apply strContains_append_left
    apply strContains_append_left
    apply strContains_append_left
    apply strContains_append_left
    apply strContains_append_left
    apply strContains_append_right
    exact contains_concatAll_map_line entityLine (strContains_entityLine c)
      (mem_kind_filter _ hc ht)
  · -- usecase: domain layer
    apply strContains_append_left
    apply strContains_append_left
    apply strContains_append_left
    apply strContains_append_right
    unfold generateDomainLayer
    apply strContains_append_left
    apply strContains_append_left
    apply strContains_append_left
    apply strContains_append_right
    exact contains_concatAll_map_line componentLine (strContains_componentLine c)
      (mem_kind_filter _ hc ht)
  · -- repository protocol: domain layer
    apply strContains_append_left
    apply strContains_append_left
    apply strContains_append_left
    apply strContains_append_right
    unfold generateDomainLayer
    apply strContains_append_left
    apply strContains_append_right
    exact contains_concatAll_map_line repoProtoLine (strContains_repoProtoLine c)
      (mem_kind_filter _ hc ht)
  · -- swiftdata model: data layer
    apply strContains_append_left
    apply strContains_append_left
    apply strContains_append_right
    unfold generateDataLayer
    apply strContains_append_left
    apply strContains_append_left
    apply strContains_append_left
    apply strContains_append_right
    exact contains_concatAll_map_line componentLine (strContains_componentLine c)
      (mem_kind_filter _ hc ht)
  · -- repository implementation: data layer
    apply strContains_append_left
    apply strContains_append_left
    apply strContains_append_right
    unfold generateDataLayer
    apply strContains_append_left
    apply strContains_append_right
    exact contains_concatAll_map_line componentLine (strContains_componentLine c)
      (mem_kind_filter _ hc ht)
  · -- service: core layer
    apply strContains_append_left
    apply strContains_append_right
    unfold generateCoreLayer
    apply strContains_append_left
    apply strContains_append_right
    exact contains_concatAll_map_line componentLine (strContains_componentLine c)
      (mem_kind_filter _ hc ht)
  · -- di container: DI layer
    apply strContains_append_right
    unfold generateDiLayer
    apply strContains_append_left
    apply strContains_append_right
    exact contains_concatAll_map_line componentLine (strContains_componentLine c)
      (mem_kind_filter _ hc ht)

/-! ## Soundness of the repository-protocol scan -/

theorem scanAll_sound {α : Type} {P : α → Prop} {m : List Char → Option (α × List Char)}
    (hm : ∀ s a rem, m s = some (a, rem) → P a) :
    ∀ (fuel : Nat) (s : List Char) (a : α), a ∈ scanAll m fuel s → P a := by
  intro fuel
  induction fuel with
  | zero => intro s a h; cases h
  | succ n ih =>
    intro s a h
    cases s with
    | nil => cases h
    | cons c t =>
      rw [scanAll] at h
      cases hm2 : m (c :: t) with
      | none =>
        rw [hm2] at h
        exact ih t a h
      | some pr =>
        rw [hm2] at h
        rcases List.mem_cons.mp h with rfl | hmem
        · exact hm _ _ _ hm2
        · exact ih pr.2 a hmem

theorem matchRepoProtoAt_contains {s : List Char} {name : String} {rem : List Char}
    (h : matchRepoProtoAt s = some (name, rem)) :
    strContains name "Repository" = true := by
  unfold matchRepoProtoAt at h
  cases h1 : dropLit "public".data s with
  | none => rw [h1] at h; cases h
  | some r1 =>
    rw [h1] at h
    simp only [Option.bind_eq_bind, Option.some_bind] at h
    cases h2 : needSpaces r1 with
    | none => rw [h2] at h; cases h
    | some r2 =>
      rw [h2] at h
      simp only [Option.some_bind] at h
      cases h3 : dropLit "protocol".data r2 with
      | none => rw [h3] at h; cases h
      | some r3 =>
        rw [h3] at h
        simp only [Option.some_bind] at h
        cases h4 : needSpaces r3 with
        | none => rw [h4] at h; cases h
        | some r4 =>
          rw [h4] at h
          simp only [Option.some_bind] at h
          cases h5 : wordRun r4 with
          | mk w rest =>
            rw [h5] at h
            cases w with
            | nil => dsimp only at h; cases h
            | cons wc wt =>
              dsimp only at h
              by_cases h6 : containsSub (wc :: wt) "Repository".data = true
              · rw [if_pos h6] at h
                simp only [Option.some.injEq, Prod.mk.injEq] at h
                obtain ⟨hname, -⟩ := h
                subst hname
                exact h6
              · rw [if_neg h6] at h
                cases h

/-! ## Fixtures for the claim theorems -/

/-- Modelled from the spec's words (used only to state what claim C1 asserts
about the stem): strip one trailing `View` suffix from the name, leaving the
name unchanged when it does not end in `View`. -/
def specTrailingStem (s : String) : String :=
  if isPfx "View".data.reverse s.data.reverse then ⟨s.data.take (s.data.length - 4)⟩
  else s

/-- A project whose domain repositories file declares `protocol
HabitRepository` and whose data repositories file declares `class
HabitRepositoryImpl` — exactly claim C2's scenario, WITHOUT `public`. -/
def fsC2bad : ProjectFS :=
  ⟨none, none, none, some [⟨"HabitRepository", some "protocol HabitRepository"⟩],
   none, some [⟨"HabitRepositoryImpl", some "class HabitRepositoryImpl"⟩], none, none⟩

/-- Claim C2's scenario with the declaration forms the patterns actually
match: `public protocol` and `public final class`. -/
def fsC2 : ProjectFS :=
  ⟨none, none, none, some [⟨"HabitRepository", some "public protocol HabitRepository"⟩],
   none, some [⟨"HabitRepositoryImpl", some "public final class HabitRepositoryImpl"⟩],
   none, none⟩

def protoC2 : Component :=
  ⟨"HabitRepository", "Ritualist/Domain/Repositories/HabitRepository.swift",
   "repository_protocol", [], "Repository protocol"⟩

def implC2 : Component :=
  ⟨"HabitRepositoryImpl", "Ritualist/Data/Repositories/HabitRepositoryImpl.swift",
   "repository_impl", [], "Repository implementation"⟩

/-- A feature whose only presentation file is unreadable. -/
def fsC3 : ProjectFS :=
  ⟨some [⟨"Broken", some [⟨"BrokenView", none⟩], false⟩],
   none, none, none, none, none, none, none⟩

/-- Two files, in entity and use-case folders, both producing a component
named `SyncUC`. -/
def fsC5 : ProjectFS :=
  ⟨none, some [⟨"A", some "public struct SyncUC"⟩],
   some [⟨"B", some "import Foundation\npublic final class SyncUC"⟩],
   none, none, none, none, none⟩

def syncUCFinal : Component :=
  ⟨"SyncUC", "Ritualist/Domain/UseCases/B.swift", "usecase", ["Foundation"],
   "Business logic use case"⟩

/-- A project root with none of the conventional directories. -/
def fsEmpty : ProjectFS := ⟨none, none, none, none, none, none, none, none⟩

/-- Everything after the header in the diagram of the empty registry. -/
def emptyDiagramTail : String :=
  generateLayers [] [] ++ generateRelationships [] ++ generateNotes ++ generateFooter

/-- The fixed header text before the embedded timestamp. -/
def headerPre : String :=
  "@startuml Ritualist iOS Architecture\n\n!theme aws-orange\nskinparam backgroundColor white\nskinparam componentStyle rectangle\nskinparam packageStyle rectangle\n\ntitle Ritualist iOS App - Clean Architecture Overview\nnote top : Auto-generated on "

/-- Everything after the embedded timestamp in the diagram. -/
def diagramTail (reg : Registry) (features : List String) : String :=
  "\n\n" ++ generateLayers (reg.map Prod.snd) features ++
  generateRelationships (reg.map Prod.snd) ++ generateNotes ++ generateFooter

/-- The section of the diagram each recognized kind is rendered in:
0 application (static only), 1 features, 2 domain, 3 data, 4 core, 5 DI. -/
def kindSection : String → Option Nat
  | "view" => some 1
  | "viewmodel" => some 1
  | "entity" => some 2
  | "usecase" => some 2
  | "repository_protocol" => some 2
  | "swiftdata_model" => some 3
  | "repository_impl" => some 3
  | "service" => some 4
  | "di_container" => some 5
  | _ => none

def fsC8w : ProjectFS :=
  ⟨none, some [⟨"Habit", some "public struct Habit"⟩], none, none, none, none, none, none⟩

def habitEntity : Component :=
  ⟨"Habit", "Ritualist/Domain/Entities/Habit.swift", "entity", [], "Domain entity"⟩

def fsC10w : ProjectFS :=
  ⟨none, none, none, some [⟨"HabitRepository", some "public protocol HabitRepository"⟩],
   none, none, none, none⟩

/-- The three dependency sources of `_extract_dependencies`, named
individually: import-statement targets. -/
def importDeps (text : String) : List String :=
  scanImports (text.data.length + 1) text.data true

/-- Conformance-list names minus the deny-list. -/
def conformanceDeps (text : String) : List String :=
  (scanAll matchColonAt (text.data.length + 1) text.data).flatten.filter fun p =>
    !(p == "ObservableObject" || p == "Sendable" || p == "Hashable" || p == "Equatable")

/-- Captured initializer parameter types. -/
def initParamDeps (text : String) : List String :=
  scanAll matchInitAt (text.data.length + 1) text.data

/-! ## Claim theorems -/

/-- C1 (counterexample): the claim says the stem is obtained by stripping a
trailing `View` suffix, so for the registry holding view `ViewHabitsView` and
view-model `ViewHabitsViewModel` (stem `ViewHabits`, which the view-model's
name starts with) an `observes` edge would have to be emitted; the code
instead computes the stem with `replace('View', '')`, removing EVERY
occurrence (giving `Habits`, which `ViewHabitsViewModel` does not start
with), and emits no edge at all. -/
theorem spec_c1_counterexample :
    specTrailingStem "ViewHabitsView" = "ViewHabits" ∧
    strStarts "ViewHabitsViewModel" "ViewHabits" = true ∧
    strReplace "ViewHabitsView" "View" "" = "Habits" ∧
    strStarts "ViewHabitsViewModel" "Habits" = false ∧
    observesEdges
      [⟨"ViewHabitsView", "Ritualist/Features/Habits/Presentation/ViewHabitsView.swift",
        "view", [], "Habits feature view"⟩,
       ⟨"ViewHabitsViewModel", "Ritualist/Features/Habits/Presentation/ViewHabitsViewModel.swift",
        "viewmodel", [], "Habits feature view model"⟩] = [] :=
  ⟨rfl, rfl, rfl, rfl, rfl⟩

/-- C1 (amended): for every view component the renderer emits at most one
`observes` edge; the stem is the view's name with every occurrence of `View`
removed (`replace`, not suffix stripping), and the view is paired with the
first view-model in registry order whose name starts with that stem, no edge
being emitted when none matches; a registry with view `HabitsView` and
view-model `HabitsViewModel` yields exactly the edge line
`HabitsView --> HabitsViewModel : observes`. -/
theorem spec_c1_amended :
    (∀ components : List Component,
      (observesEdges components).length ≤
        (components.filter (fun c => c.type == "view")).length) ∧
    observesEdges
      [⟨"HabitsView", "Ritualist/Features/Habits/Presentation/HabitsView.swift",
        "view", [], "Habits feature view"⟩,
       ⟨"HabitsViewModel", "Ritualist/Features/Habits/Presentation/HabitsViewModel.swift",
        "viewmodel", [], "Habits feature view model"⟩] =
      ["HabitsView --> HabitsViewModel : observes\n"] := by
  constructor
  · intro components
    exact List.length_filterMap_le _ _
  · rfl

/-- C2 (counterexample): the extraction patterns require `public protocol`
and `public final class`, so claim C2's scenario — `protocol HabitRepository`
and `class HabitRepositoryImpl` without `public` — extracts nothing, the
registry stays empty, and the rendered relationship section contains no
`implements` edge. -/
theorem spec_c2_counterexample :
    extractRepositoryProtocols (some "protocol HabitRepository") = [] ∧
    extractRepositoryImplementations (some "class HabitRepositoryImpl") = [] ∧
    analyzeCodebase fsC2bad = some ([], []) ∧
    strContains (generateRelationships []) "implements" = false :=
  ⟨rfl, rfl, rfl, by decide⟩

/-- C2 (amended): repository-protocol extraction returns names of `public
protocol` declarations containing `Repository`; for a project whose domain
repositories folder declares `public protocol HabitRepository` and whose data
repositories folder declares `public final class HabitRepositoryImpl`, the
relationship section contains exactly one `implements` edge linking them. -/
theorem spec_c2_amended :
    (∀ (content : Option String) (name : String),
      name ∈ extractRepositoryProtocols content → strContains name "Repository" = true) ∧
    analyzeCodebase fsC2 = some ([("HabitRepository", protoC2), ("HabitRepositoryImpl", implC2)], []) ∧
    implementsEdges [protoC2, implC2] =
      ["HabitRepositoryImpl .up.|> IHabitRepository : implements\n"] ∧
    generateRelationships [protoC2, implC2] =
      "' ===== RELATIONSHIPS =====\n\n' MVVM Pattern\n\n' Repository Pattern\nHabitRepositoryImpl .up.|> IHabitRepository : implements\n\n' Security Layer\nPaywallService --> SecureSubscriptionService : validates purchases\n\n" := by
  refine ⟨?_, rfl, rfl, rfl⟩
  intro content name h
  cases content with
  | none => cases h
  | some text =>
    exact scanAll_sound (fun s a rem hm => matchRepoProtoAt_contains hm) _ _ _ h

/-- C2 (witness for the amended theorem's general part). -/
theorem spec_c2_witness :
    strContains "HabitRepository" "Repository" = true :=
  spec_c2_amended.1 (some "public protocol HabitRepository") "HabitRepository" (by decide)

/-- C3: extraction never propagates an exception — a file whose read fails
(`none` content, the `except` branch) yields the empty list from every
extractor, and the scan continues past such a file (here the unreadable
`BrokenView.swift` still yields its file-name-derived view component with an
empty dependency list, and the run completes). -/
theorem spec_c3_extraction_never_fails :
    extractDependencies none = [] ∧
    extractEntitiesFromFile none = [] ∧
    extractUsecasesFromFile none = [] ∧
    extractRepositoryProtocols none = [] ∧
    extractSwiftdataModels none = [] ∧
    extractRepositoryImplementations none = [] ∧
    extractServices none = [] ∧
    analyzeCodebase fsC3 =
      some ([("BrokenView",
        ⟨"BrokenView", "Ritualist/Features/Broken/Presentation/BrokenView.swift",
         "view", [], "Broken feature view"⟩)], ["Broken"]) :=
  ⟨rfl, rfl, rfl, rfl, rfl, rfl, rfl, rfl⟩

/-- C4: the dependency list stored for a file is duplicate-free — any name
extracted from a file with N duplicate conformance declarations is recorded
exactly once (`list(set(...))` deduplication). -/
theorem spec_c4_dependencies_deduplicated :
    ∀ (content : Option String) (name : String),
      name ∈ extractDependencies content →
      (extractDependencies content).count name = 1 := by
  intro content name h
  have hnd : (extractDependencies content).Nodup := by
    cases content with
    | none => exact List.nodup_nil
    | some text => exact List.nodup_dedup _
  exact List.count_eq_one_of_mem hnd h

/-- C4 (witness): a file with two conformance declarations of `Codable`
records `Codable` exactly once. -/
theorem spec_c4_witness :
    (extractDependencies (some "struct A: Codable\nstruct B: Codable")).count "Codable" = 1 :=
  spec_c4_dependencies_deduplicated
    (some "struct A: Codable\nstruct B: Codable") "Codable" (by decide)

/-- C5: every registry the scanner produces has pairwise-distinct component
names (one record per name), and in the concrete two-file collision scenario
the surviving record's fields are the ones extracted from the file processed
last in scan order (the use-case file `B.swift` overwrites the entity from
`A.swift`). -/
theorem spec_c5_last_writer_wins :
    (∀ (fs : ProjectFS) (reg : Registry) (feats : List String),
      analyzeCodebase fs = some (reg, feats) → (keysOf reg).Nodup) ∧
    analyzeCodebase fsC5 = some ([("SyncUC", syncUCFinal)], []) := by
  constructor
  · intro fs reg feats h
    exact (analyzeCodebase_good h).1
  · rfl

/-- C5 (witness). -/
theorem spec_c5_witness : (keysOf [("SyncUC", syncUCFinal)]).Nodup :=
  spec_c5_last_writer_wins.1 fsC5 [("SyncUC", syncUCFinal)] [] (by rfl)

/-- C6: scanning a project root with none of the conventional directories
yields the empty registry and empty feature set without failing, and the
rendered diagram for that empty state still contains every fixed static
section: the application-layer placeholders, the unconditional security
relationship line, the three layer notes, and the footer. -/
theorem spec_c6_empty_project_full_diagram :
    analyzeCodebase fsEmpty = some ([], []) ∧
    (∀ ts : String, generateDiagram [] [] ts = generateHeader ts ++ emptyDiagramTail) ∧
    strContains emptyDiagramTail "component \"RitualistApp\" as RitualistApp" = true ∧
    strContains emptyDiagramTail "component \"RootTabView\" as RootTabView" = true ∧
    strContains emptyDiagramTail "component \"AppDelegate\" as AppDelegate" = true ∧
    strContains emptyDiagramTail
      "PaywallService --> SecureSubscriptionService : validates purchases" = true ∧
    strContains emptyDiagramTail "note top of DomainLayer" = true ∧
    strContains emptyDiagramTail "note top of DataLayer" = true ∧
    strContains emptyDiagramTail "note top of CoreLayer" = true ∧
    strContains emptyDiagramTail "@enduml" = true := by
  refine ⟨rfl, ?_, by decide, by decide, by decide, by decide, by decide, by decide,
    by decide, by decide⟩
  intro ts
  simp [generateDiagram, emptyDiagramTail, String.append_assoc]

/-- C7: the renderer is deterministic up to the embedded timestamp — the
diagram factors as a fixed prefix, then the timestamp verbatim, then a tail
depending only on the registry and feature set; hence two runs on the same
registry and feature set are byte-identical outside the timestamp slice
(identical prefix before it and identical tail after it). -/
theorem spec_c7_deterministic_modulo_timestamp :
    (∀ (reg : Registry) (features : List String) (ts : String),
      generateDiagram reg features ts = headerPre ++ ts ++ diagramTail reg features) ∧
    (∀ (reg : Registry) (features : List String) (ts₁ ts₂ : String),
      (generateDiagram reg features ts₁).data.take headerPre.data.length =
        (generateDiagram reg features ts₂).data.take headerPre.data.length ∧
      (generateDiagram reg features ts₁).data.drop
          (headerPre.data.length + ts₁.data.length) =
        (generateDiagram reg features ts₂).data.drop
          (headerPre.data.length + ts₂.data.length)) := by
  have hfact : ∀ (reg : Registry) (features : List String) (ts : String),
      generateDiagram reg features ts = headerPre ++ ts ++ diagramTail reg features := by
    intro reg features ts
    simp [generateDiagram, generateHeader, headerPre, diagramTail, String.append_assoc]
  refine ⟨hfact, ?_⟩
  intro reg features ts₁ ts₂
  have hdata : ∀ ts : String, (generateDiagram reg features ts).data =
      (headerPre.data ++ ts.data) ++ (diagramTail reg features).data := by
    intro ts
    rw [hfact reg features ts, String.data_append, String.data_append]
  constructor
  · rw [hdata ts₁, hdata ts₂, List.append_assoc, List.append_assoc,
      List.take_left, List.take_left]
  · rw [hdata ts₁, hdata ts₂]
    have h1 : headerPre.data.length + ts₁.data.length =
        (headerPre.data ++ ts₁.data).length := (List.length_append _ _).symm
    have h2 : headerPre.data.length + ts₂.data.length =
        (headerPre.data ++ ts₂.data).length := (List.length_append _ _).symm
    rw [h1, h2, List.drop_left, List.drop_left]

/-- C8: every component of a registry produced by the scanner has a
recognized kind that maps to exactly one rendering section (`kindSection` is
some), and the renderer does not silently drop it: its name appears in the
generated diagram text. -/
theorem spec_c8_every_component_rendered :
    ∀ (fs : ProjectFS) (reg : Registry) (feats : List String) (ts : String)
      (p : String × Component),
      analyzeCodebase fs = some (reg, feats) → p ∈ reg →
      (kindSection p.2.type).isSome = true ∧
      strContains (generateDiagram reg feats ts) p.2.name = true := by
  intro fs reg feats ts p h hmem
  have hg := analyzeCodebase_good h
  have hgc := hg.2 p hmem
  constructor
  · have hk := hgc.2.1
    simp only [recognizedKinds, List.mem_cons, List.mem_singleton,
      List.not_mem_nil, or_false] at hk
    rcases hk with h'|h'|h'|h'|h'|h'|h'|h'|h' <;> rw [h'] <;> rfl
  · show strContains (generateHeader ts ++ generateLayers (reg.map Prod.snd) feats ++
      generateRelationships (reg.map Prod.snd) ++ generateNotes ++ generateFooter)
      p.2.name = true
    apply strContains_append_left
    apply strContains_append_left
    apply strContains_append_left
    apply strContains_append_right
    exact generateLayers_contains (List.mem_map_of_mem Prod.snd hmem) hgc

/-- C8 (witness): the entity `Habit` from a one-file project is recognized
and rendered. -/
theorem spec_c8_witness :
    (kindSection ("Habit", habitEntity).2.type).isSome = true ∧
    strContains (generateDiagram [("Habit", habitEntity)] [] "2025-08-02 12:00:00")
      ("Habit", habitEntity).2.name = true :=
  spec_c8_every_component_rendered fsC8w [("Habit", habitEntity)] [] "2025-08-02 12:00:00"
    ("Habit", habitEntity) (by rfl) (List.mem_singleton.mpr rfl)

/-- C9 (counterexample): the claim says the type of EVERY named constructor
parameter appears in the extracted dependencies, but for
`init(a: T, b: Equatable, c: Foo)` the extraction yields only `Foo`:
the init pattern captures only the last parameter, `T` is too short for
either pattern (`[A-Z]\w+` needs two characters), and `Equatable` is
deny-listed in the conformance pass. -/
theorem spec_c9_counterexample :
    extractDependencies (some "init(a: T, b: Equatable, c: Foo)") = ["Foo"] ∧
    ("T" ∈ extractDependencies (some "init(a: T, b: Equatable, c: Foo)") → False) ∧
    ("Equatable" ∈ extractDependencies (some "init(a: T, b: Equatable, c: Foo)") → False) :=
  ⟨rfl, by decide, by decide⟩

/-- C9 (amended): dependency extraction returns exactly the deduplicated
union of the three sources — import targets, conformance-list names minus
the deny-list, and initializer parameter types — where the init source
captures, per `init(` occurrence, only the type of the last parameter whose
`name: Type` text matches; a non-final parameter type can therefore be absent
when the conformance pattern also misses it (single-letter or deny-listed). -/
theorem spec_c9_amended :
    (∀ (text : String) (x : String),
      x ∈ extractDependencies (some text) ↔
        x ∈ importDeps text ∨ x ∈ conformanceDeps text ∨ x ∈ initParamDeps text) ∧
    initParamDeps "init(a: T, b: Equatable, c: Foo)" = ["Foo"] ∧
    "Foo" ∈ extractDependencies (some "init(a: T, b: Equatable, c: Foo)") := by
  refine ⟨?_, rfl, by decide⟩
  intro text x
  show x ∈ (importDeps text ++ conformanceDeps text ++ initParamDeps text).dedup ↔ _
  rw [List.mem_dedup, List.mem_append, List.mem_append]
  tauto

/-- C9 (witness for the amended theorem's characterization). -/
theorem spec_c9_witness :
    "Foo" ∈ importDeps "init(a: T, b: Equatable, c: Foo)" ∨
    "Foo" ∈ conformanceDeps "init(a: T, b: Equatable, c: Foo)" ∨
    "Foo" ∈ initParamDeps "init(a: T, b: Equatable, c: Foo)" :=
  (spec_c9_amended.1 "init(a: T, b: Equatable, c: Foo)" "Foo").mp (by decide)

/-- C10: in every registry the scanner produces, components of kind
`entity`, `repository_protocol` and `swiftdata_model` carry an empty
dependency list (those scans never invoke dependency extraction). -/
theorem spec_c10_static_kinds_no_dependencies :
    ∀ (fs : ProjectFS) (reg : Registry) (feats : List String) (p : String × Component),
      analyzeCodebase fs = some (reg, feats) → p ∈ reg →
      (p.2.type = "entity" ∨ p.2.type = "repository_protocol" ∨
        p.2.type = "swiftdata_model") →
      p.2.dependencies = [] := by
  intro fs reg feats p h hmem hk
  exact ((analyzeCodebase_good h).2 p hmem).2.2.2.2 hk

/-- C10 (witness): the repository protocol from a one-file project has no
dependencies. -/
theorem spec_c10_witness : protoC2.dependencies = [] :=
  spec_c10_static_kinds_no_dependencies fsC10w [("HabitRepository", protoC2)] []
    ("HabitRepository", protoC2) (by rfl) (List.mem_singleton.mpr rfl)
    (Or.inr (Or.inl rfl))
